import Mathlib

/-!
Verification of the etf-risk-reporter repository against its specification.

The repository has two scripts sharing one pipeline design:
  * `src/etf_report.py` — the single-fund (ETF) variant;
  * `src/portfolio_risk_assessment.py` — the portfolio variant.

We embed the arithmetic and data-shaping core of both scripts shallowly:

  * weight values are modelled as exact rationals (`ℚ`); the Python floats
    compute the same field expressions, and the claims' 1e-6 tolerances are
    settled by exact identities;
  * pandas/CSV missing values (`NaN`) are modelled as `Option.none`; a cell
    holding the empty string is `some ""` — the distinction is load-bearing,
    because `pd.notna("")` is true and `dropna()` keeps empty strings;
  * a DataFrame column that is absent altogether is modelled at the structure
    level (`hasIsin`/`hasSector`/`hasCountry` flags), because
    `row.get(col, "")` yields the default `""` exactly when the column is
    absent, and the (possibly NaN) cell when it is present;
  * `pandas.groupby` drops rows whose group key contains NaN (the default
    `dropna=True`), which the embedding reproduces via `keyOf` returning
    `none`;
  * `sort_values` is modelled by an insertion sort on the weight key; the
    claims proved below do not depend on the order of ties.
-/

/-- Lowercase a string into its character list (`str.lower()` on the
ASCII range, which is all the source's keyword and header data uses). -/
def lowerL (s : String) : List Char :=
  s.data.map Char.toLower

/-- Substring containment test on character lists: Python's `needle in hay`. -/
def isSub (needle : List Char) : List Char → Bool
  | [] => needle.isEmpty
  | c :: t => needle.isPrefixOf (c :: t) || isSub needle t

/-- Python `key.replace("_", " ")` for the single-character pattern `"_"`. -/
def replUnderscore (cs : List Char) : List Char :=
  cs.map (fun c => if c = '_' then ' ' else c)

/-- Herfindahl-Hirschman index of a weight column: both scripts compute
`((w/100)**2).sum()` (etf_report.py line 68, portfolio_risk_assessment.py
lines 161-162). -/
def hhi (ws : List ℚ) : ℚ :=
  (ws.map (fun w => (w / 100) * (w / 100))).sum

/-- Descending insertion of `a` into a list ordered by `key` descending. -/
def insertByDesc {α : Type} (key : α → ℚ) (a : α) : List α → List α
  | [] => [a]
  | b :: bs => if key b < key a then a :: b :: bs else b :: insertByDesc key a bs

/-- Sort descending by `key`: models `sort_values(by=…, ascending=False)`.
The claims below never depend on the relative order of equal keys. -/
def sortByDesc {α : Type} (key : α → ℚ) (l : List α) : List α :=
  l.foldr (insertByDesc key) []

/-- Order-preserving deduplication (first occurrence kept). Models the group
keys of a grouping operation; the verified claims never depend on the order
in which distinct groups are listed. -/
def dedupFirst {α : Type} [DecidableEq α] : List α → List α
  | [] => []
  | k :: ks => k :: (dedupFirst ks).filter (fun k' => !(decide (k' = k)))

namespace EtfReport

/-- A holdings row of the single-fund script after column projection:
`df.columns = ["name", "weight"]` (etf_report.py lines 46-47), with the
weight already parsed from its text form (strip `%` and `,`, parse float). -/
structure Holding where
  name : String
  weight : ℚ
deriving DecidableEq, Repr

/-- etf_report.py `normalize` (lines 43-50), starting after column
resolution and float parsing: multiply every weight by 100 when the column
sum is < 1.5 (fractional 0-1 scale heuristic), then sort descending.
Note: this variant performs NO rescaling of the total to 100. -/
def normalize (rows : List Holding) : List Holding :=
  let scaled :=
    if (rows.map (·.weight)).sum < 3/2 then
      rows.map (fun h => { h with weight := h.weight * 100 })
    else rows
  sortByDesc (·.weight) scaled

/-- Index of the first weight whose running total (starting from `acc`)
reaches 70: the `(csum >= 70).idxmax()` of etf_report.py line 54.
`none` models the all-`False` case, where pandas `idxmax` returns the
first index label (0). -/
def firstCrossIdx (acc : ℚ) : List ℚ → Option Nat
  | [] => none
  | w :: ws => if 70 ≤ acc + w then some 0 else (firstCrossIdx (acc + w) ws).map (· + 1)

/-- etf_report.py `minimal_70` (lines 52-55): `df.loc[:idx]` is an inclusive
slice, so the result is the prefix up to and including the crossing row;
when no running total reaches 70, `idxmax` of the all-`False` series is 0
and the first row alone is returned. -/
def minimal_70 (rows : List Holding) : List Holding :=
  rows.take (((firstCrossIdx 0 (rows.map (·.weight))).getD 0) + 1)

/-- The AI keyword dictionary of etf_report.py lines 16-21, flattened in
category order (only membership in the flat list matters to `ai_flag`). -/
def AI_KEYWORDS : List String :=
  ["semi", "chip", "micro", "TSMC", "SK hynix", "Samsung Electronics", "Micron",
   "cloud", "aws", "alibaba cloud", "tencent cloud", "amazon", "microsoft",
   "Tencent", "Alibaba", "Meituan", "Baidu", "JD.com", "PDD", "Sea Ltd", "Naspers",
   "NVIDIA", "Palantir", "C3.ai", "SAP", "Infosys", "TCS"]

/-- etf_report.py `ai_flag` (lines 57-63): case-insensitive substring match
of any keyword against the holding name. -/
def ai_flag (name : String) : Bool :=
  AI_KEYWORDS.any (fun kw => isSub (lowerL kw) (lowerL name))

/-- Top-10 weight share: etf_report.py line 67. -/
def top10_pct (rows : List Holding) : ℚ :=
  ((rows.take 10).map (·.weight)).sum / 100

/-- AI exposure of the single-fund report: etf_report.py line 69 — the sum
of matching weights DIVIDED BY 100 (a fraction of the fund). -/
def ai_pct (rows : List Holding) : ℚ :=
  ((rows.filter (fun h => ai_flag h.name)).map (·.weight)).sum / 100

/-- The single-fund pipeline from a parsed raw table to the report data:
normalize, metrics, minimal-70 list (etf_report.py `main`, lines 98-105,
minus I/O). -/
def runEtf (rows : List Holding) : List Holding × ℚ × ℚ × ℚ × List Holding :=
  let df := normalize rows
  (df.take 10, top10_pct df, hhi (df.map (·.weight)), ai_pct df, minimal_70 df)

end EtfReport

namespace PortfolioRisk

/-- One entry of the case-insensitive header dictionary
`cols = {c.lower(): c for c in df.columns}` (portfolio_risk_assessment.py
line 27): lowered label paired with the original label. Duplicate lowered
labels collapse onto the first occurrence's position with the last
occurrence's original spelling, as in a Python dict comprehension. -/
def buildCols (headers : List String) : List (List Char × String) :=
  headers.foldl
    (fun acc c =>
      let l := lowerL c
      if acc.any (fun p => decide (p.1 = l)) then
        acc.map (fun p => if p.1 = l then (l, c) else p)
      else acc ++ [(l, c)])
    []

/-- The match test of the generic pass (line 31):
`key.replace("_"," ") in lower or key in lower`. -/
def keyMatches (key : String) (lower : List Char) : Bool :=
  isSub (replUnderscore key.data) lower || isSub key.data lower

/-- The generic detection pass for one canonical key (lines 29-32): iterate
the header dictionary in order and OVERWRITE the mapping on every match —
there is no `break`, so the final value is the last matching label. -/
def genericDetect (cols : List (List Char × String)) (key : String) : Option String :=
  cols.foldl (fun acc p => if keyMatches key p.1 then some p.2 else acc) none

/-- One fallback pass (lines 34-53): iterate the header dictionary and stop
at the first label containing any of the fallback substrings (`break`). -/
def fallbackScan (cols : List (List Char × String)) (subs : List String) : Option String :=
  match cols with
  | [] => none
  | p :: rest =>
      if subs.any (fun s => isSub s.data p.1) then some p.2
      else fallbackScan rest subs

/-- Resolution of the `name` column by `detect_columns`: generic pass, then
the `name|holding|security` fallback (lines 34-37). -/
def detect_name (headers : List String) : Option String :=
  (genericDetect (buildCols headers) "name").orElse
    (fun _ => fallbackScan (buildCols headers) ["name", "holding", "security"])

/-- Resolution of the `weight` column: generic pass, then the `weight|%`
fallback (lines 38-41). -/
def detect_weight (headers : List String) : Option String :=
  (genericDetect (buildCols headers) "weight").orElse
    (fun _ => fallbackScan (buildCols headers) ["weight", "%"])

/-- Resolution of the `isin` column: generic pass, then the
`isin|security id` fallback (lines 42-45). -/
def detect_isin (headers : List String) : Option String :=
  (genericDetect (buildCols headers) "isin").orElse
    (fun _ => fallbackScan (buildCols headers) ["isin", "security id"])

/-- Resolution of the `sector` column (lines 46-49). -/
def detect_sector (headers : List String) : Option String :=
  (genericDetect (buildCols headers) "sector").orElse
    (fun _ => fallbackScan (buildCols headers) ["sector"])

/-- Resolution of the `country` column (lines 50-53). -/
def detect_country (headers : List String) : Option String :=
  (genericDetect (buildCols headers) "country").orElse
    (fun _ => fallbackScan (buildCols headers) ["country", "geography", "region"])

/-- portfolio_risk_assessment.py `normalize_weights` (lines 56-61), after
text parsing: if the parsed column sums below 1.5, treat it as fractional
and multiply by 100. -/
def normalize_weights (ws : List ℚ) : List ℚ :=
  if ws.sum < 3/2 then ws.map (· * 100) else ws

/-- The loader steps of `main` (lines 97-104) on a parsed weight column:
normalize, skip the file when the total is ≤ 0, otherwise rescale by
`100/total` so the fund sums to 100. -/
def load_fund (ws : List ℚ) : Option (List ℚ) :=
  let s := normalize_weights ws
  if s.sum ≤ 0 then none else some (s.map (· * (100 / s.sum)))

/-- One row of a loaded fund's projected DataFrame (lines 95-96): the name
and weight columns always exist; string cells are `none` when the CSV cell
was missing (pandas `NaN`). The isin/sector/country cells are only
meaningful when the corresponding column exists on the fund. -/
structure SrcRow where
  name : Option String
  weight : ℚ
  isin : Option String
  sector : Option String
  country : Option String
deriving DecidableEq, Repr

/-- A successfully loaded fund (`funds.append({"file": f, "df": df})`,
line 104): its file name, which optional columns were resolved, and its
rows (weights already normalized and rescaled by the loader). -/
structure Fund where
  file : String
  hasIsin : Bool
  hasSector : Bool
  hasCountry : Bool
  rows : List SrcRow
deriving DecidableEq, Repr

/-- Python `r.get(col, "")` (lines 125-127): the cell when the column exists
(possibly NaN), the non-NaN empty string when the column is absent. -/
def cellOr (present : Bool) (v : Option String) : Option String :=
  if present then v else some ""

/-- One appended portfolio row (lines 121-130). -/
structure PortRow where
  source_file : String
  name : Option String
  isin : Option String
  sector : Option String
  country : Option String
  portfolio_weight_pct : ℚ
deriving DecidableEq, Repr

/-- Build the portfolio row of fund `f`'s source row `r` with fund
multiplier `mult` (lines 121-130). -/
def toPortRow (mult : ℚ) (f : Fund) (r : SrcRow) : PortRow :=
  { source_file := f.file
    name := r.name
    isin := cellOr f.hasIsin r.isin
    sector := cellOr f.hasSector r.sector
    country := cellOr f.hasCountry r.country
    portfolio_weight_pct := r.weight * mult }

/-- All portfolio rows with a common multiplier `mult`. -/
def portRowsWith (mult : ℚ) (funds : List Fund) : List PortRow :=
  (funds.map (fun f => f.rows.map (toPortRow mult f))).flatten

/-- The `rows` list of lines 118-130: every fund's multiplier is `1/N`
(`ASSUME_EQUAL_FUND_WEIGHT` — both branches of the conditional at lines
111-115 compute the same equal weight). -/
def portRows (funds : List Fund) : List PortRow :=
  portRowsWith (1 / (funds.length : ℚ)) funds

/-- Line 133: `key = "isin" if port_df["isin"].notna().sum() > 0 else
"name"`. `notna` is true for every non-NaN cell — including the empty
string that `r.get("isin", "")` produced for funds without an ISIN
column. -/
def useIsinKey (rows : List PortRow) : Bool :=
  rows.any (fun r => r.isin.isSome)

/-- The consolidation group key: the `(isin, name)` pair when keying by
ISIN, the name alone otherwise (lines 134-145). -/
inductive GKey where
  | byIsin (isin : String) (name : String)
  | byName (name : String)
deriving DecidableEq, Repr

/-- The group key of one row, or `none` when a key column is NaN — pandas
`groupby` (default `dropna=True`) silently drops such rows. -/
def keyOf (useIsin : Bool) (r : PortRow) : Option GKey :=
  if useIsin then
    match r.isin, r.name with
    | some i, some n => some (.byIsin i n)
    | _, _ => none
  else r.name.map .byName

/-- The rows that survive into the grouping, paired with their keys. -/
def keyedRows (rows : List PortRow) : List (GKey × PortRow) :=
  rows.filterMap (fun r => (keyOf (useIsinKey rows) r).map (fun k => (k, r)))

/-- The aggregation lambda of lines 136-137 and 142-143:
`x.dropna().iloc[0] if len(x.dropna())>0 else ""` — the FIRST non-NaN value
(empty strings are non-NaN and are not skipped), else `""`. -/
def firstNonNaN (vals : List (Option String)) : String :=
  ((vals.filterMap id).head?).getD ""

/-- One consolidated holding (lines 134-145). -/
structure Consolidated where
  key : GKey
  sector : String
  country : String
  portfolio_weight_pct : ℚ
deriving DecidableEq, Repr

/-- The member rows of the group keyed `k`, in original row order (pandas
`groupby` preserves the order of rows within each group). -/
def groupRows (keyed : List (GKey × PortRow)) (k : GKey) : List PortRow :=
  (keyed.filter (fun p => decide (p.1 = k))).map Prod.snd

/-- Aggregate one group (lines 135-145): first non-NaN sector and country,
summed portfolio weight. -/
def mkGroup (keyed : List (GKey × PortRow)) (k : GKey) : Consolidated :=
  let g := groupRows keyed k
  { key := k
    sector := firstNonNaN (g.map (·.sector))
    country := firstNonNaN (g.map (·.country))
    portfolio_weight_pct := (g.map (·.portfolio_weight_pct)).sum }

/-- The whole consolidation step (lines 132-145): key choice, NaN-key drop,
one aggregated row per distinct key. (pandas lists groups in sorted key
order; we list them in first-occurrence order — no claim below depends on
the order in which distinct groups appear.) -/
def consolidate (rows : List PortRow) : List Consolidated :=
  let keyed := keyedRows rows
  (dedupFirst (keyed.map Prod.fst)).map (mkGroup keyed)

/-- The displayed name of a consolidated row (the `name` column after
`reset_index`). -/
def keyName : GKey → String
  | .byIsin _ n => n
  | .byName n => n

/-- AI_NAME_KEYWORDS of portfolio_risk_assessment.py line 17. -/
def AI_NAME_KEYWORDS : List String :=
  ["nvidia", "intel", "tsmc", "sk hynix", "micron", "amd", "qualcomm", "tencent",
   "alibaba", "baidu", "sea ltd", "pdd", "jd.com", "amazon", "microsoft", "google",
   "alphabet", "sap", "infosys", "tcs"]

/-- AI_SECTOR_KEYWORDS of portfolio_risk_assessment.py line 18. -/
def AI_SECTOR_KEYWORDS : List String :=
  ["technology", "information technology", "semiconductors", "software",
   "internet services", "data processing", "it services", "communications"]

/-- portfolio_risk_assessment.py `ai_flag` (lines 63-72): case-insensitive
substring match of the name keywords against the name OR of the sector
keywords against the sector. -/
def ai_flag (name sector : String) : Bool :=
  AI_NAME_KEYWORDS.any (fun kw => isSub (lowerL kw) (lowerL name)) ||
  AI_SECTOR_KEYWORDS.any (fun kw => isSub (lowerL kw) (lowerL sector))

/-- Line 159: `total_ai_pct = agg[agg["ai_flag"]]["portfolio_weight_pct"].sum()`
— the summed PERCENTAGE of AI-flagged consolidated holdings, with no
division by 100. -/
def total_ai_pct (agg : List Consolidated) : ℚ :=
  ((agg.filter (fun c => ai_flag (keyName c.key) c.sector)).map
    (·.portfolio_weight_pct)).sum

/-- One row of the persisted `portfolio_summary.csv` (lines 150-191). -/
structure SummaryRow where
  rank : Nat
  key : GKey
  sector : String
  country : String
  weight_pct : ℚ
  aiFlag : Bool
deriving DecidableEq, Repr

/-- The portfolio pipeline from the loaded funds to the persisted summary
rows, the AI exposure and the HHI (lines 109-192, minus printing). -/
def runPortfolio (funds : List Fund) : List SummaryRow × ℚ × ℚ :=
  let agg := consolidate (portRows funds)
  let sorted := sortByDesc (·.portfolio_weight_pct) agg
  let summary := sorted.enum.map (fun p =>
    { rank := p.1 + 1
      key := p.2.key
      sector := p.2.sector
      country := p.2.country
      weight_pct := p.2.portfolio_weight_pct
      aiFlag := ai_flag (keyName p.2.key) p.2.sector : SummaryRow })
  (summary, total_ai_pct agg, hhi (agg.map (·.portfolio_weight_pct)))

end PortfolioRisk

/-- The selection rule as the specification words it: the first value that
is present and NON-EMPTY would be `specFirstPresent` applied after
filtering out `""`; the code's actual rule is captured by taking the first
present (non-NaN) value, empty or not. This recursion is the reference
against which `firstNonNaN` is compared. -/
def specFirstPresent : List (Option String) → String
  | [] => ""
  | none :: rest => specFirstPresent rest
  | some v :: _ => v

/-- Thematic exposure as the specification words it: the summed weight of
the holdings matched by the keyword rule, divided by 100. -/
def specThematicFrac {α : Type} (matchRule : α → Bool) (weightOf : α → ℚ)
    (l : List α) : ℚ :=
  ((l.filter matchRule).map weightOf).sum / 100


/-! ### Demonstration inputs used by counterexamples and witnesses -/

/-- A loaded fund with no ISIN / sector / country columns: a single holding
"A" at weight 100. -/
def noIsinFund : PortfolioRisk.Fund :=
  { file := "a.csv", hasIsin := false, hasSector := false, hasCountry := false,
    rows := [{ name := some "A", weight := 100, isin := none, sector := none, country := none }] }

/-- A loaded fund WITH an ISIN column in which one cell is missing (NaN):
two holdings of 50 each, summing to 100. -/
def nanIsinFund : PortfolioRisk.Fund :=
  { file := "f.csv", hasIsin := true, hasSector := false, hasCountry := false,
    rows := [{ name := some "A", weight := 50, isin := some "X1", sector := none, country := none },
             { name := some "B", weight := 50, isin := none, sector := none, country := none }] }

/-- A loaded fund holding only "NVIDIA" at 100%. -/
def nvidiaFund : PortfolioRisk.Fund :=
  { file := "n.csv", hasIsin := false, hasSector := false, hasCountry := false,
    rows := [{ name := some "NVIDIA", weight := 100, isin := none, sector := none, country := none }] }

/-- A loaded fund with no sector column, holding "A" at 100%: its
portfolio rows carry the non-NaN empty-string sector. -/
def noSectorFund : PortfolioRisk.Fund :=
  { file := "b.csv", hasIsin := false, hasSector := false, hasCountry := false,
    rows := [{ name := some "A", weight := 100, isin := none, sector := none, country := none }] }

/-- A loaded fund WITH a sector column, holding "A" at 100% in sector
"Tech". -/
def techSectorFund : PortfolioRisk.Fund :=
  { file := "c.csv", hasIsin := false, hasSector := true, hasCountry := false,
    rows := [{ name := some "A", weight := 100, isin := none, sector := some "Tech", country := none }] }

/-- A row of a portfolio table counts as having a non-empty ISIN when the
cell is present (non-NaN) and not the empty string — the condition the
specification uses to describe the key choice. -/
def nonEmptyIsin (r : PortfolioRisk.PortRow) : Bool :=
  match r.isin with
  | some s => decide (s ≠ "")
  | none => false

/-! ### General list lemmas used by several claims -/

theorem sum_map_mulR (c : ℚ) : ∀ l : List ℚ, (l.map (· * c)).sum = l.sum * c
  | [] => by simp
  | a :: t => by simp [sum_map_mulR c t, add_mul]

theorem sum_map_sub {α : Type} (f g : α → ℚ) :
    ∀ l : List α, (l.map (fun x => f x - g x)).sum = (l.map f).sum - (l.map g).sum
  | [] => by simp
  | a :: t => by simp [sum_map_sub f g t]; ring

theorem sum_map_nonneg {α : Type} (f : α → ℚ) :
    ∀ l : List α, (∀ x ∈ l, 0 ≤ f x) → 0 ≤ (l.map f).sum
  | [], _ => by simp
  | a :: t, h => by
      simp only [List.map_cons, List.sum_cons]
      have ha := h a (by simp)
      have ht := sum_map_nonneg f t (fun x hx => h x (by simp [hx]))
      linarith

theorem sum_map_pos {α : Type} (f : α → ℚ) :
    ∀ l : List α, (∀ x ∈ l, 0 ≤ f x) → (∃ x ∈ l, 0 < f x) → 0 < (l.map f).sum
  | [], _, hex => by simp at hex
  | a :: t, h, hex => by
      simp only [List.map_cons, List.sum_cons]
      have ha := h a (by simp)
      have ht := sum_map_nonneg f t (fun x hx => h x (by simp [hx]))
      rcases hex with ⟨x, hx, hpos⟩
      rcases List.mem_cons.mp hx with rfl | hxt
      · linarith
      · have := sum_map_pos f t (fun y hy => h y (by simp [hy])) ⟨x, hxt, hpos⟩
        linarith

theorem sum_map_eq_zero_iff {α : Type} (f : α → ℚ) :
    ∀ l : List α, (∀ x ∈ l, 0 ≤ f x) → ((l.map f).sum = 0 ↔ ∀ x ∈ l, f x = 0)
  | [], _ => by simp
  | a :: t, h => by
      simp only [List.map_cons, List.sum_cons]
      have ha := h a (by simp)
      have ht := sum_map_nonneg f t (fun x hx => h x (by simp [hx]))
      have iht := sum_map_eq_zero_iff f t (fun x hx => h x (by simp [hx]))
      constructor
      · intro hz x hx
        have h1 : f a = 0 ∧ (t.map f).sum = 0 := by constructor <;> linarith
        rcases List.mem_cons.mp hx with rfl | hxt
        · exact h1.1
        · exact (iht.mp h1.2) x hxt
      · intro hz
        have h1 : f a = 0 := hz a (by simp)
        have h2 : (t.map f).sum = 0 := iht.mpr (fun x hx => hz x (by simp [hx]))
        rw [h1, h2, add_zero]

theorem sum_map_const {α : Type} (c : ℚ) :
    ∀ l : List α, (l.map (fun _ => c)).sum = l.length * c
  | [] => by simp
  | a :: t => by
      simp [sum_map_const c t, add_mul]
      ring

theorem sum_map_congr {α : Type} (f g : α → ℚ) :
    ∀ l : List α, (∀ x ∈ l, f x = g x) → (l.map f).sum = (l.map g).sum
  | [], _ => by simp
  | a :: t, h => by
      simp only [List.map_cons, List.sum_cons]
      rw [h a (by simp), sum_map_congr f g t (fun x hx => h x (by simp [hx]))]

theorem sum_insertByDesc {α : Type} (key f : α → ℚ) (a : α) :
    ∀ l : List α, ((insertByDesc key a l).map f).sum = f a + (l.map f).sum
  | [] => by simp [insertByDesc]
  | b :: bs => by
      by_cases h : key b < key a
      · simp [insertByDesc, h]
      · simp [insertByDesc, h, sum_insertByDesc key f a bs]
        ring

theorem sum_sortByDesc {α : Type} (key f : α → ℚ) :
    ∀ l : List α, ((sortByDesc key l).map f).sum = (l.map f).sum
  | [] => by simp [sortByDesc]
  | a :: t => by
      rw [show sortByDesc key (a :: t) = insertByDesc key a (sortByDesc key t) from rfl,
        sum_insertByDesc key f a, sum_sortByDesc key f t]
      simp

theorem mem_dedupFirst {α : Type} [DecidableEq α] :
    ∀ (l : List α) (a : α), a ∈ dedupFirst l ↔ a ∈ l
  | [], a => by simp [dedupFirst]
  | k :: ks, a => by
      simp only [dedupFirst, List.mem_cons, List.mem_filter]
      constructor
      · rintro (rfl | ⟨hmem, _⟩)
        · exact Or.inl rfl
        · exact Or.inr ((mem_dedupFirst ks a).mp hmem)
      · rintro (rfl | hks)
        · exact Or.inl rfl
        · by_cases hak : a = k
          · exact Or.inl hak
          · exact Or.inr ⟨(mem_dedupFirst ks a).mpr hks, by simp [hak]⟩

theorem nodup_dedupFirst {α : Type} [DecidableEq α] :
    ∀ l : List α, (dedupFirst l).Nodup
  | [] => by simp [dedupFirst]
  | k :: ks => by
      simp only [dedupFirst]
      refine List.Nodup.cons ?_ (List.Nodup.filter _ (nodup_dedupFirst ks))
      intro hmem
      rcases List.mem_filter.mp hmem with ⟨_, hne⟩
      simp at hne

theorem sum_filter_split {α : Type} (f : α → ℚ) (q : α → Bool) :
    ∀ l : List α,
      ((l.filter q).map f).sum + ((l.filter (fun x => !q x)).map f).sum = (l.map f).sum
  | [] => by simp
  | a :: t => by
      by_cases h : q a
      · simp only [List.filter_cons, h, Bool.not_true, if_true]
        simp only [List.map_cons, List.sum_cons]
        rw [← sum_filter_split f q t]
        simp [h]
        ring
      · have hb : q a = false := by simpa using h
        simp only [List.filter_cons, hb, Bool.not_false]
        simp only [List.map_cons, List.sum_cons]
        rw [← sum_filter_split f q t]
        simp
        ring

theorem filter_erase_other {α K : Type} [DecidableEq K] (g : α → K) (k k' : K)
    (hne : k' ≠ k) (l : List α) :
    (l.filter (fun p => !decide (g p = k))).filter (fun p => decide (g p = k')) =
      l.filter (fun p => decide (g p = k')) := by
  induction l with
  | nil => simp
  | cons a t ih =>
      by_cases h : g a = k'
      · have h2 : ¬ g a = k := by rw [h]; exact hne
        simp [List.filter_cons, h, h2, ih, hne]
      · by_cases h2 : g a = k
        · simp [List.filter_cons, h, h2, ih, Ne.symm hne]
        · simp [List.filter_cons, h, h2, ih]

theorem sum_fibers {α K : Type} [DecidableEq K] (f : α → ℚ) (g : α → K) :
    ∀ (keys : List K) (l : List α), keys.Nodup → (∀ p ∈ l, g p ∈ keys) →
      (keys.map (fun k => ((l.filter (fun p => decide (g p = k))).map f).sum)).sum =
        (l.map f).sum
  | [], l, _, hcov => by
      cases l with
      | nil => simp
      | cons a t => exact absurd (hcov a (by simp)) (by simp)
  | k :: ks, l, hnd, hcov => by
      simp only [List.map_cons, List.sum_cons]
      have hk_not : k ∉ ks := by
        have := List.nodup_cons.mp hnd
        exact this.1
      have hnd' : ks.Nodup := (List.nodup_cons.mp hnd).2
      set l' := l.filter (fun p => !decide (g p = k)) with hl'
      have hcov' : ∀ p ∈ l', g p ∈ ks := by
        intro p hp
        rcases List.mem_filter.mp hp with ⟨hpl, hpk⟩
        have hnk : g p ≠ k := by simpa using hpk
        rcases List.mem_cons.mp (hcov p hpl) with h | h
        · exact absurd h hnk
        · exact h
      have hcong : (ks.map (fun k' => ((l.filter (fun p => decide (g p = k'))).map f).sum)).sum
          = (ks.map (fun k' => ((l'.filter (fun p => decide (g p = k'))).map f).sum)).sum := by
        apply sum_map_congr
        intro k' hk'
        have hne : k' ≠ k := by
          rintro rfl
          exact hk_not hk'
        rw [hl', filter_erase_other g k k' hne l]
      rw [hcong, sum_fibers f g ks l' hnd' hcov']
      rw [hl']
      exact sum_filter_split f (fun p => decide (g p = k)) l

/-! ### Lemmas about the minimal-70 crossing index -/

namespace EtfReport

theorem firstCrossIdx_none_of_lt :
    ∀ (ws : List ℚ) (acc : ℚ), (∀ k, acc + (ws.take k).sum < 70) →
      firstCrossIdx acc ws = none
  | [], _, _ => rfl
  | w :: ws, acc, h => by
      have h1 : acc + w < 70 := by simpa using h 1
      have h2 : ∀ k, (acc + w) + (ws.take k).sum < 70 := by
        intro k
        have := h (k + 1)
        simpa [add_assoc] using this
      simp [firstCrossIdx, not_le.mpr h1, firstCrossIdx_none_of_lt ws (acc + w) h2]

theorem lt_of_firstCrossIdx_none :
    ∀ (ws : List ℚ) (acc : ℚ), acc < 70 → firstCrossIdx acc ws = none →
      ∀ k, acc + (ws.take k).sum < 70
  | [], _, hacc, _, k => by simpa using hacc
  | w :: ws, acc, hacc, hnone, k => by
      rw [firstCrossIdx] at hnone
      by_cases hc : 70 ≤ acc + w
      · simp [hc] at hnone
      · have hrec : firstCrossIdx (acc + w) ws = none := by
          rcases hnone' : firstCrossIdx (acc + w) ws with _ | i
          · rfl
          · simp [hc, hnone'] at hnone
        cases k with
        | zero => simpa using hacc
        | succ k =>
            have := lt_of_firstCrossIdx_none ws (acc + w) (not_le.mp hc) hrec k
            simpa [add_assoc] using this

theorem firstCrossIdx_some_spec :
    ∀ (ws : List ℚ) (acc : ℚ) (i : ℕ), acc < 70 → firstCrossIdx acc ws = some i →
      i < ws.length ∧ 70 ≤ acc + (ws.take (i + 1)).sum ∧
        ∀ j ≤ i, acc + (ws.take j).sum < 70
  | [], acc, i, _, hsome => by simp [firstCrossIdx] at hsome
  | w :: ws, acc, i, hacc, hsome => by
      rw [firstCrossIdx] at hsome
      by_cases hc : 70 ≤ acc + w
      · simp only [hc, if_true, Option.some.injEq] at hsome
        subst hsome
        refine ⟨by simp, by simpa using hc, ?_⟩
        intro j hj
        interval_cases j
        simpa using hacc
      · simp only [hc, if_false] at hsome
        rcases hrec : firstCrossIdx (acc + w) ws with _ | i'
        · rw [hrec] at hsome
          simp at hsome
        · rw [hrec] at hsome
          simp only [Option.map_some', Option.some.injEq] at hsome
          subst hsome
          obtain ⟨hlen, hge, hlt⟩ :=
            firstCrossIdx_some_spec ws (acc + w) i' (not_le.mp hc) hrec
          refine ⟨by simpa using Nat.succ_lt_succ hlen, ?_, ?_⟩
          · simpa [add_assoc] using hge
          · intro j hj
            cases j with
            | zero => simpa using hacc
            | succ j =>
                have := hlt j (Nat.le_of_succ_le_succ hj)
                simpa [add_assoc] using this

end EtfReport

/-! ### Lemmas about the portfolio aggregation -/

namespace PortfolioRisk

theorem keyedRows_snd_of_all_some (rows : List PortRow)
    (h : ∀ r ∈ rows, (keyOf (useIsinKey rows) r).isSome) :
    (keyedRows rows).map Prod.snd = rows := by
  rw [keyedRows]
  generalize hg : keyOf (useIsinKey rows) = g at h
  clear hg
  induction rows with
  | nil => simp
  | cons r t ih =>
      rcases hk : g r with _ | k
      · exact absurd (h r (by simp)) (by simp [hk])
      · have ih' := ih (fun x hx => h x (by simp [hx]))
        simp [List.filterMap_cons, hk, ih']

theorem sum_consolidate_eq_keyed (rows : List PortRow) :
    ((consolidate rows).map (·.portfolio_weight_pct)).sum =
      ((keyedRows rows).map (fun p => p.2.portfolio_weight_pct)).sum := by
  rw [consolidate]
  have hmap : ∀ keyed : List (GKey × PortRow), ∀ keys : List GKey,
      (keys.map (mkGroup keyed)).map (·.portfolio_weight_pct) =
        keys.map (fun k => ((keyed.filter (fun p => decide (p.1 = k))).map
          (fun p => p.2.portfolio_weight_pct)).sum) := by
    intro keyed keys
    rw [List.map_map]
    apply List.map_congr_left
    intro k _
    simp [mkGroup, groupRows, List.map_map]
    rfl
  rw [hmap]
  exact sum_fibers (fun p => p.2.portfolio_weight_pct) Prod.fst
    (dedupFirst ((keyedRows rows).map Prod.fst)) (keyedRows rows)
    (nodup_dedupFirst _)
    (fun p hp => (mem_dedupFirst _ _).mpr (List.mem_map_of_mem Prod.fst hp))

theorem sum_rows_toPortRow (mult : ℚ) (f : Fund) :
    ∀ rs : List SrcRow,
      ((rs.map (toPortRow mult f)).map (·.portfolio_weight_pct)).sum =
        (rs.map (·.weight)).sum * mult
  | [] => by simp
  | r :: t => by
      have ih := sum_rows_toPortRow mult f t
      simp only [List.map_cons, List.sum_cons]
      rw [ih]
      simp [toPortRow]
      ring

theorem sum_portRowsWith (mult : ℚ) (funds : List Fund) :
    ((portRowsWith mult funds).map (·.portfolio_weight_pct)).sum =
      (funds.map (fun f => (f.rows.map (·.weight)).sum * mult)).sum := by
  induction funds with
  | nil => simp [portRowsWith]
  | cons f t ih =>
      simp only [portRowsWith, List.map_cons, List.flatten_cons, List.map_append,
        List.sum_append] at ih ⊢
      rw [ih, sum_rows_toPortRow mult f f.rows]
      simp

end PortfolioRisk

namespace PortfolioRisk

theorem any_isin_toPortRow (mult : ℚ) (f : Fund) :
    ∀ rs : List SrcRow,
      ((rs.map (toPortRow mult f)).any fun r => r.isin.isSome) =
        rs.any (fun r => !f.hasIsin || r.isin.isSome)
  | [] => by simp
  | r :: t => by
      simp only [List.map_cons, List.any_cons, any_isin_toPortRow mult f t]
      congr 1
      cases hI : f.hasIsin <;> simp [toPortRow, cellOr, hI]

theorem useIsinKey_portRowsWith (mult : ℚ) (funds : List Fund) :
    useIsinKey (portRowsWith mult funds) =
      funds.any (fun f => f.rows.any (fun r => !f.hasIsin || r.isin.isSome)) := by
  induction funds with
  | nil => simp [useIsinKey, portRowsWith]
  | cons f t ih =>
      simp only [useIsinKey, portRowsWith, List.map_cons, List.flatten_cons,
        List.any_append, List.any_cons] at ih ⊢
      rw [ih]
      congr 1
      exact any_isin_toPortRow mult f f.rows

theorem firstNonNaN_eq_specFirstPresent :
    ∀ vals : List (Option String), firstNonNaN vals = specFirstPresent vals
  | [] => rfl
  | none :: rest => by
      rw [specFirstPresent, ← firstNonNaN_eq_specFirstPresent rest]
      simp [firstNonNaN, List.filterMap_cons]
  | some v :: rest => by
      simp [firstNonNaN, specFirstPresent, List.filterMap_cons]

theorem foldl_detect_eq_last (m : (List Char × String) → Bool) :
    ∀ (cols : List (List Char × String)) (init : Option String),
      cols.foldl (fun acc p => if m p then some p.2 else acc) init =
        (match cols.reverse.find? m with
          | some q => some q.2
          | none => init)
  | [], init => rfl
  | p :: rest, init => by
      simp only [List.foldl_cons, List.reverse_cons]
      rw [foldl_detect_eq_last m rest _]
      rcases hfind : rest.reverse.find? m with _ | q
      · by_cases hm : m p <;> simp [List.find?_append, hfind, List.find?_cons, hm]
      · simp [List.find?_append, hfind]

theorem fallbackScan_eq_find (subs : List String) :
    ∀ cols : List (List Char × String),
      fallbackScan cols subs =
        (cols.find? (fun p => subs.any (fun s => isSub s.data p.1))).map Prod.snd
  | [] => rfl
  | p :: rest => by
      rw [fallbackScan, List.find?_cons]
      by_cases hm : (subs.any (fun s => isSub s.data p.1)) <;>
        simp [hm, fallbackScan_eq_find subs rest]

end PortfolioRisk


/-! ### C1 — per-fund weight sums after loading -/

/-- C1 (amended): the portfolio-variant Fund Loader rescales by
`100/total`, so every accepted table's weights sum to exactly 100 (hence
within 1e-6) for any input scale and any positive input total; the ETF
variant's `normalize` performs no such rescaling — its output total is the
parsed total, times 100 when the fractional-scale branch fires. -/
theorem C1_weight_sums (ws out : List ℚ) (rows : List EtfReport.Holding)
    (h : PortfolioRisk.load_fund ws = some out) :
    out.sum = 100 ∧
      ((EtfReport.normalize rows).map (·.weight)).sum =
        (if (rows.map (·.weight)).sum < 3/2 then 100 * (rows.map (·.weight)).sum
         else (rows.map (·.weight)).sum) := by
  constructor
  · simp only [PortfolioRisk.load_fund] at h
    by_cases hle : (PortfolioRisk.normalize_weights ws).sum ≤ 0
    · simp [hle] at h
    · simp only [hle, if_false, Option.some.injEq] at h
      subst h
      rw [sum_map_mulR]
      have hne : (PortfolioRisk.normalize_weights ws).sum ≠ 0 := fun h0 => hle (le_of_eq h0)
      field_simp
  · simp only [EtfReport.normalize]
    by_cases hf : (rows.map (·.weight)).sum < 3/2
    · simp only [hf, if_true]
      rw [sum_sortByDesc]
      have hscale : ∀ rs : List EtfReport.Holding,
          ((rs.map (fun h => ({ h with weight := h.weight * 100 } : EtfReport.Holding))).map
            (·.weight)).sum = (rs.map (·.weight)).sum * 100 := by
        intro rs
        induction rs with
        | nil => simp
        | cons r t ih =>
            simp only [List.map_cons, List.sum_cons]
            rw [ih]
            show r.weight * 100 + (t.map (·.weight)).sum * 100 = (r.weight + (t.map (·.weight)).sum) * 100
            ring
      rw [hscale]
      ring
    · simp only [hf, if_false]
      rw [sum_sortByDesc]

/-- C1 counterexample: a single-holding table with parsed weight 80 is
accepted by the ETF variant (weights parseable, total 80 > 0), yet the
normalized weights sum to 80, not 100 within 1e-6. -/
theorem C1_counterexample :
    ¬ (|((EtfReport.normalize [⟨"A", 80⟩]).map (·.weight)).sum - 100| ≤ 1/1000000) := by
  norm_num [EtfReport.normalize, sortByDesc, insertByDesc]

/-- C1 witness: the loader accepts the parsed column [50, 30, 20] and the
theorem yields its total 100. -/
theorem C1_witness :
    PortfolioRisk.load_fund [50, 30, 20] = some [50, 30, 20] ∧
      ([50, 30, 20] : List ℚ).sum = 100 :=
  ⟨by norm_num [PortfolioRisk.load_fund, PortfolioRisk.normalize_weights],
   (C1_weight_sums [50, 30, 20] [50, 30, 20] []
     (by norm_num [PortfolioRisk.load_fund, PortfolioRisk.normalize_weights])).1⟩

/-! ### C3 — global identity-key choice -/

/-- C3 (amended): the consolidation keys by ISIN iff some row's isin cell
is non-NaN — equivalently, iff some loaded fund has a row and either lacks
the ISIN column (its rows carry the non-NaN empty string `""`) or has a
non-NaN isin cell. Grouping falls back to name only when every row's isin
is NaN, which requires every fund to have an ISIN column. -/
theorem C3_key_choice (funds : List PortfolioRisk.Fund) :
    PortfolioRisk.useIsinKey (PortfolioRisk.portRows funds) =
      funds.any (fun f => f.rows.any (fun r => !f.hasIsin || r.isin.isSome)) :=
  PortfolioRisk.useIsinKey_portRowsWith _ funds

/-- C3 counterexample: a run whose only fund has NO ISIN column (so no row
has a non-empty ISIN) still selects ISIN-keyed grouping, because the
`r.get("isin","")` default `""` is non-NaN. The claim requires name-keyed
grouping here. -/
theorem C3_counterexample :
    PortfolioRisk.useIsinKey (PortfolioRisk.portRows [noIsinFund]) = true ∧
      (PortfolioRisk.portRows [noIsinFund]).any nonEmptyIsin = false := by
  constructor <;>
    simp +decide [PortfolioRisk.useIsinKey, PortfolioRisk.portRows,
      PortfolioRisk.portRowsWith, PortfolioRisk.toPortRow, noIsinFund,
      PortfolioRisk.cellOr, nonEmptyIsin]

/-! ### C4 — column resolver match order -/

/-- C4 (amended): in the generic pass the LAST matching label (in the
deduplicated declared column order) wins for every key, because the loop
overwrites the mapping without a `break`; only the fallback passes (used
when the generic pass resolved nothing for the field) take the FIRST
matching label. -/
theorem C4_resolver_match_order (headers : List String) (key : String) (subs : List String) :
    PortfolioRisk.genericDetect (PortfolioRisk.buildCols headers) key =
        ((PortfolioRisk.buildCols headers).reverse.find?
          (fun p => PortfolioRisk.keyMatches key p.1)).map Prod.snd ∧
      PortfolioRisk.fallbackScan (PortfolioRisk.buildCols headers) subs =
        ((PortfolioRisk.buildCols headers).find?
          (fun p => subs.any (fun s => isSub s.data p.1))).map Prod.snd := by
  constructor
  · rw [PortfolioRisk.genericDetect, PortfolioRisk.foldl_detect_eq_last]
    rcases h : (PortfolioRisk.buildCols headers).reverse.find?
        (fun p => PortfolioRisk.keyMatches key p.1) with _ | q <;> simp [h]
  · exact PortfolioRisk.fallbackScan_eq_find subs _

/-- C4 counterexample: with headers ["Weight A", "Weight B"], both contain
"weight", and the resolver maps the key to "Weight B" — the last match in
column order, not the first. -/
theorem C4_counterexample :
    PortfolioRisk.genericDetect (PortfolioRisk.buildCols ["Weight A", "Weight B"]) "weight" =
        some "Weight B" ∧
      (some "Weight B" : Option String) ≠ some "Weight A" := by
  constructor
  · decide
  · simp

/-! ### C6 — thematic (AI) exposure scale -/

/-- C6 (amended): the ETF variant's AI exposure is the matching-weight sum
divided by 100 (a fraction), exactly as the claim words it; the portfolio
variant's `total_ai_pct` omits the division and equals 100 times that
fraction (a percentage). -/
theorem C6_thematic_exposure (rows : List EtfReport.Holding)
    (agg : List PortfolioRisk.Consolidated) :
    EtfReport.ai_pct rows =
        specThematicFrac (fun h => EtfReport.ai_flag h.name) (·.weight) rows ∧
      PortfolioRisk.total_ai_pct agg =
        100 * specThematicFrac
          (fun c => PortfolioRisk.ai_flag (PortfolioRisk.keyName c.key) c.sector)
          (·.portfolio_weight_pct) agg := by
  constructor
  · rfl
  · rw [PortfolioRisk.total_ai_pct, specThematicFrac, mul_comm, div_mul_cancel₀]
    norm_num

/-- C6 counterexample: a portfolio consisting of one fund that holds only
"NVIDIA" at 100%. The consolidated table's computed exposure is 100 (a
percentage), not the claimed matching-weight-sum / 100 = 1. -/
theorem C6_counterexample :
    PortfolioRisk.total_ai_pct
        (PortfolioRisk.consolidate (PortfolioRisk.portRows [nvidiaFund])) ≠
      specThematicFrac
        (fun c => PortfolioRisk.ai_flag (PortfolioRisk.keyName c.key) c.sector)
        (·.portfolio_weight_pct)
        (PortfolioRisk.consolidate (PortfolioRisk.portRows [nvidiaFund])) := by
  simp +decide [PortfolioRisk.total_ai_pct, PortfolioRisk.consolidate,
    PortfolioRisk.portRows, PortfolioRisk.portRowsWith, PortfolioRisk.toPortRow,
    nvidiaFund, PortfolioRisk.cellOr, PortfolioRisk.keyedRows, PortfolioRisk.useIsinKey,
    PortfolioRisk.keyOf, dedupFirst, PortfolioRisk.mkGroup, PortfolioRisk.groupRows,
    PortfolioRisk.firstNonNaN, PortfolioRisk.keyName, specThematicFrac,
    List.filterMap_cons, List.filter_cons]

/-! ### C7 — minimal-70 cutoff -/

/-- C7 (amended): whenever some prefix of the table reaches cumulative
weight 70, `minimal_70` returns exactly the smallest such prefix — its own
cumulative weight is ≥ 70 and every strictly shorter prefix (in particular
the one obtained by removing the returned prefix's last row) stays below
70. When no prefix reaches 70 the returned value is the first row alone
(see C10), so the crossing property of the claim fails there. -/
theorem C7_minimal70_crossing (rows : List EtfReport.Holding)
    (h : ∃ k, 70 ≤ ((rows.map (·.weight)).take k).sum) :
    0 < (EtfReport.minimal_70 rows).length ∧
      EtfReport.minimal_70 rows = rows.take ((EtfReport.minimal_70 rows).length) ∧
      70 ≤ ((rows.map (·.weight)).take ((EtfReport.minimal_70 rows).length)).sum ∧
      ∀ j < (EtfReport.minimal_70 rows).length, ((rows.map (·.weight)).take j).sum < 70 := by
  rcases hidx : EtfReport.firstCrossIdx 0 (rows.map (·.weight)) with _ | i
  · exfalso
    rcases h with ⟨k, hk⟩
    have := EtfReport.lt_of_firstCrossIdx_none (rows.map (·.weight)) 0 (by norm_num) hidx k
    rw [zero_add] at this
    exact absurd hk (not_le.mpr this)
  · obtain ⟨hlen, hge, hlt⟩ :=
      EtfReport.firstCrossIdx_some_spec (rows.map (·.weight)) 0 i (by norm_num) hidx
    have hml : EtfReport.minimal_70 rows = rows.take (i + 1) := by
      rw [EtfReport.minimal_70, hidx]
      rfl
    have hlength : (EtfReport.minimal_70 rows).length = i + 1 := by
      rw [hml, List.length_take]
      have : i < rows.length := by simpa using hlen
      omega
    refine ⟨by omega, by rw [hlength, hml], ?_, ?_⟩
    · rw [hlength]
      simpa using hge
    · intro j hj
      rw [hlength] at hj
      have := hlt j (by omega)
      simpa using this

/-- C7 counterexample: a descending-sorted single-holding table of weight
50 (as produced by the ETF normalize step). No prefix reaches 70, yet
`minimal_70` returns the whole (one-row) table, whose cumulative weight 50
is not ≥ 70 — contradicting the claim's universally asserted crossing
property. -/
theorem C7_counterexample :
    ¬ (70 ≤ ((EtfReport.minimal_70 (EtfReport.normalize [⟨"A", 50⟩])).map (·.weight)).sum) := by
  norm_num [EtfReport.normalize, sortByDesc, insertByDesc, EtfReport.minimal_70,
    EtfReport.firstCrossIdx]

/-- C7 witness: on the table [("A", 80)] the prefix of length 1 reaches 70,
and the theorem applies. -/
theorem C7_witness :
    (70 : ℚ) ≤ ((([⟨"A", 80⟩] : List EtfReport.Holding).map (·.weight)).take 1).sum ∧
      0 < (EtfReport.minimal_70 [⟨"A", 80⟩]).length :=
  ⟨by norm_num, (C7_minimal70_crossing [⟨"A", 80⟩] ⟨1, by norm_num⟩).1⟩

/-! ### C9 — run-to-run determinism -/

/-- C9: the consolidated table, metrics and persisted summary rows are pure
functions of the parsed input tables: two runs over identical input data
(same funds in the same order, same ETF table) produce identical outputs.
The embedding realizes both pipelines as total functions, which is exactly
the determinism the claim asserts; the row-order-dependent tie-breaks are
preserved because every step is an order-preserving list operation. -/
theorem C9_deterministic (funds funds' : List PortfolioRisk.Fund)
    (rows rows' : List EtfReport.Holding) (h1 : funds = funds') (h2 : rows = rows') :
    PortfolioRisk.runPortfolio funds = PortfolioRisk.runPortfolio funds' ∧
      EtfReport.runEtf rows = EtfReport.runEtf rows' := by
  subst h1
  subst h2
  exact ⟨rfl, rfl⟩

/-- C9 witness: two runs on the same one-fund portfolio and the same
one-row ETF table coincide. -/
theorem C9_witness :
    PortfolioRisk.runPortfolio [nvidiaFund] = PortfolioRisk.runPortfolio [nvidiaFund] ∧
      EtfReport.runEtf [⟨"A", 50⟩] = EtfReport.runEtf [⟨"A", 50⟩] :=
  C9_deterministic [nvidiaFund] [nvidiaFund] [⟨"A", 50⟩] [⟨"A", 50⟩] rfl rfl

/-! ### C10 — minimal-70 on tables that never reach 70 -/

/-- C10: for any non-empty table, `minimal_70` returns at least one row;
and when no running total reaches 70 (the all-`False` `idxmax` case) it
returns exactly the first row of the table. -/
theorem C10_minimal70_low_total (rows : List EtfReport.Holding) (hne : rows ≠ []) :
    EtfReport.minimal_70 rows ≠ [] ∧
      ((∀ k, ((rows.map (·.weight)).take k).sum < 70) →
        EtfReport.minimal_70 rows = rows.take 1) := by
  constructor
  · cases rows with
    | nil => exact absurd rfl hne
    | cons r t => simp [EtfReport.minimal_70]
  · intro h
    have hnone : EtfReport.firstCrossIdx 0 (rows.map (·.weight)) = none := by
      apply EtfReport.firstCrossIdx_none_of_lt
      intro k
      simpa using h k
    rw [EtfReport.minimal_70, hnone]
    rfl

/-- C10 witness: the single-row table [("A", 50)] is non-empty, never
reaches 70, and `minimal_70` returns its (non-empty) first row. -/
theorem C10_witness :
    ([⟨"A", 50⟩] : List EtfReport.Holding) ≠ [] ∧
      EtfReport.minimal_70 [⟨"A", 50⟩] ≠ [] ∧
      EtfReport.minimal_70 [⟨"A", 50⟩] = ([⟨"A", 50⟩] : List EtfReport.Holding).take 1 :=
  ⟨by simp,
   (C10_minimal70_low_total [⟨"A", 50⟩] (by simp)).1,
   (C10_minimal70_low_total [⟨"A", 50⟩] (by simp)).2
     (by
       intro k
       match k with
       | 0 => norm_num
       | (n + 1) => norm_num [List.take_succ_cons])⟩

/-! ### C2 — portfolio weight total after consolidation -/

theorem sum_keyed_eq_rows (rows : List PortfolioRisk.PortRow)
    (h : ∀ r ∈ rows, (PortfolioRisk.keyOf (PortfolioRisk.useIsinKey rows) r).isSome) :
    ((PortfolioRisk.keyedRows rows).map (fun p => p.2.portfolio_weight_pct)).sum =
      (rows.map (·.portfolio_weight_pct)).sum := by
  have hsnd := PortfolioRisk.keyedRows_snd_of_all_some rows h
  calc ((PortfolioRisk.keyedRows rows).map (fun p => p.2.portfolio_weight_pct)).sum
      = (((PortfolioRisk.keyedRows rows).map Prod.snd).map (·.portfolio_weight_pct)).sum := by
        rw [List.map_map]
        rfl
    _ = (rows.map (·.portfolio_weight_pct)).sum := by rw [hsnd]

/-- C2 (amended): when every loaded fund's weights sum to 100 (which the
loader guarantees), multipliers are the equal 1/N, and additionally NO row
has a NaN in its group key (non-NaN isin and name when keying by ISIN,
non-NaN name otherwise), the consolidated portfolio weights sum to exactly
100. The extra no-NaN-key condition is forced by pandas `groupby`, which
silently drops rows whose key contains NaN (see the counterexample). -/
theorem C2_portfolio_total (funds : List PortfolioRisk.Fund) (hne : funds ≠ [])
    (hsum : ∀ f ∈ funds, (f.rows.map (·.weight)).sum = 100)
    (hkeys : ∀ r ∈ PortfolioRisk.portRows funds,
      (PortfolioRisk.keyOf (PortfolioRisk.useIsinKey (PortfolioRisk.portRows funds)) r).isSome) :
    ((PortfolioRisk.consolidate (PortfolioRisk.portRows funds)).map
      (·.portfolio_weight_pct)).sum = 100 := by
  rw [PortfolioRisk.sum_consolidate_eq_keyed, sum_keyed_eq_rows _ hkeys,
    PortfolioRisk.portRows, PortfolioRisk.sum_portRowsWith]
  have hconst : ∀ f ∈ funds,
      (f.rows.map (·.weight)).sum * (1 / (funds.length : ℚ)) =
        (fun _ : PortfolioRisk.Fund => 100 * (1 / (funds.length : ℚ))) f := by
    intro f hf
    rw [hsum f hf]
  rw [sum_map_congr _ _ funds hconst, sum_map_const]
  have hn : (funds.length : ℚ) ≠ 0 := by
    have h0 : funds.length ≠ 0 := by
      cases funds with
      | nil => exact absurd rfl hne
      | cons f t => simp
    exact_mod_cast h0
  field_simp

/-- C2 counterexample: one fund loads successfully (weights sum to 100)
and has an ISIN column with one missing (NaN) cell. ISIN-keyed grouping
drops that row, and the consolidated total is 50, far outside any floating
tolerance of 100. -/
theorem C2_counterexample :
    ((nanIsinFund.rows.map (·.weight)).sum = 100) ∧
      ¬ (|((PortfolioRisk.consolidate (PortfolioRisk.portRows [nanIsinFund])).map
          (·.portfolio_weight_pct)).sum - 100| ≤ 1/1000000) := by
  constructor
  · norm_num [nanIsinFund]
  · simp +decide [PortfolioRisk.consolidate, PortfolioRisk.portRows,
      PortfolioRisk.portRowsWith, PortfolioRisk.toPortRow, nanIsinFund,
      PortfolioRisk.cellOr, PortfolioRisk.keyedRows, PortfolioRisk.useIsinKey,
      PortfolioRisk.keyOf, dedupFirst, PortfolioRisk.mkGroup, PortfolioRisk.groupRows,
      PortfolioRisk.firstNonNaN, List.filterMap_cons, List.filter_cons]
    norm_num

/-- C2 witness: a single fund with no NaN anywhere in its keys; the
theorem yields the consolidated total 100. -/
theorem C2_witness :
    (([noIsinFund] : List PortfolioRisk.Fund) ≠ [] ∧
      (∀ f ∈ ([noIsinFund] : List PortfolioRisk.Fund), (f.rows.map (·.weight)).sum = 100)) ∧
      ((PortfolioRisk.consolidate (PortfolioRisk.portRows [noIsinFund])).map
        (·.portfolio_weight_pct)).sum = 100 :=
  ⟨⟨by simp, by
      intro f hf
      rw [List.mem_singleton.mp hf]
      norm_num [noIsinFund]⟩,
   C2_portfolio_total [noIsinFund] (by simp)
     (by
       intro f hf
       rw [List.mem_singleton.mp hf]
       norm_num [noIsinFund])
     (by
       intro r hr
       simp +decide [PortfolioRisk.portRows, PortfolioRisk.portRowsWith,
         PortfolioRisk.toPortRow, noIsinFund, PortfolioRisk.cellOr,
         PortfolioRisk.useIsinKey, PortfolioRisk.keyOf] at hr ⊢
       rw [hr]
       simp +decide [PortfolioRisk.keyOf])⟩

/-! ### C8 — HHI properties -/

theorem sum_map_div (c : ℚ) : ∀ l : List ℚ, (l.map (fun w => w / c)).sum = l.sum / c
  | [] => by simp
  | a :: t => by simp [sum_map_div c t, add_div]

/-- C8 (amended): the HHI is invariant under permutation of the holdings
unconditionally — for EVERY weight column, including the unrescaled ones
the ETF variant produces; and for a weight column of nonnegative weights
summing to 100 (what the portfolio loader produces from nonnegative
inputs — the ETF variant does not rescale and can violate the range, see
the counterexample) the HHI lies in (0, 1], equals 1 iff every weight is 0
or 100 (a single holding carrying the whole 100%), and equals 1/N for N
equal holdings. -/
theorem C8_hhi_properties :
    (∀ ws ws' : List ℚ, ws.Perm ws' → hhi ws = hhi ws') ∧
      ∀ ws : List ℚ, (∀ w ∈ ws, 0 ≤ w) → ws.sum = 100 →
        0 < hhi ws ∧ hhi ws ≤ 1 ∧
          (hhi ws = 1 ↔ ∀ w ∈ ws, w = 0 ∨ w = 100) ∧
          (∀ n w, ws = List.replicate n w → hhi ws = 1 / n) := by
  constructor
  · intro ws ws' hperm
    rw [hhi, hhi]
    exact (hperm.map _).sum_eq
  intro ws h0 hsum
  have hub : ∀ w ∈ ws, w ≤ 100 := by
    intro w hw
    have := List.single_le_sum h0 w hw
    rw [hsum] at this
    exact this
  have hfrac_sum : (ws.map (fun w => w / 100)).sum = 1 := by
    rw [sum_map_div, hsum]
    norm_num
  have hD : (ws.map (fun w => w / 100 - (w / 100) * (w / 100))).sum = 1 - hhi ws := by
    rw [sum_map_sub, hfrac_sum, hhi]
  have hterm_nonneg : ∀ w ∈ ws, 0 ≤ w / 100 - (w / 100) * (w / 100) := by
    intro w hw
    have h1 : 0 ≤ w / 100 := div_nonneg (h0 w hw) (by norm_num)
    have h2 : w / 100 ≤ 1 := (div_le_one (by norm_num)).mpr (hub w hw)
    nlinarith
  have hle1 : hhi ws ≤ 1 := by
    have := sum_map_nonneg _ ws hterm_nonneg
    linarith [hD ▸ this]
  refine ⟨?_, hle1, ?_, ?_⟩
  · have hex : ∃ w ∈ ws, 0 < w := by
      by_contra hno
      push_neg at hno
      have hz : ∀ w ∈ ws, w = 0 := fun w hw => le_antisymm (hno w hw) (h0 w hw)
      have h100 : (0 : ℚ) = 100 := by rw [← List.sum_eq_zero hz, hsum]
      norm_num at h100
    rcases hex with ⟨w, hw, hwpos⟩
    apply sum_map_pos
    · intro x _
      exact mul_self_nonneg _
    · exact ⟨w, hw, mul_pos (by positivity) (by positivity)⟩
  · have hiff := sum_map_eq_zero_iff _ ws hterm_nonneg
    constructor
    · intro h1
      have hD0 : (ws.map (fun w => w / 100 - (w / 100) * (w / 100))).sum = 0 := by
        rw [hD, h1]
        ring
      intro w hw
      have hz := hiff.mp hD0 w hw
      have hfac : (w / 100) * (1 - w / 100) = 0 := by
        calc (w / 100) * (1 - w / 100) = w / 100 - (w / 100) * (w / 100) := by ring
          _ = 0 := hz
      rcases mul_eq_zero.mp hfac with h | h
      · left
        rcases div_eq_zero_iff.mp h with h' | h'
        · exact h'
        · norm_num at h'
      · right
        have : w / 100 = 1 := by linarith
        rw [div_eq_one_iff_eq (by norm_num : (100:ℚ) ≠ 0)] at this
        exact this
    · intro hall
      have hD0 : (ws.map (fun w => w / 100 - (w / 100) * (w / 100))).sum = 0 := by
        apply hiff.mpr
        intro w hw
        rcases hall w hw with rfl | rfl <;> norm_num
      linarith [hD ▸ hD0]
  · intro n w hrep
    have hnw : (n : ℚ) * w = 100 := by
      rw [hrep, List.sum_replicate, nsmul_eq_mul] at hsum
      exact hsum
    have hn0 : (n : ℚ) ≠ 0 := by
      intro h
      rw [h, zero_mul] at hnw
      norm_num at hnw
    have hw100 : w = 100 / n := by
      field_simp at hnw ⊢
      linarith
    rw [hrep, hhi, List.map_replicate, List.sum_replicate, nsmul_eq_mul, hw100]
    field_simp
    ring

/-- C8 counterexample: the ETF variant processes the one-row table
[("A", 0)] (nothing rejects it), and the computed HHI is 0, outside the
claimed range (0, 1]. -/
theorem C8_counterexample :
    ¬ (0 < hhi ((EtfReport.normalize [⟨"A", 0⟩]).map (·.weight))) := by
  norm_num [EtfReport.normalize, sortByDesc, insertByDesc, hhi]

/-- C8 witness: permutation invariance applied to the unrescaled weight
column [50, 30] permuted to [30, 50], and the conditioned package applied
to the weight column [60, 40] (nonnegative, total 100), of which we record
positivity. -/
theorem C8_witness :
    hhi [50, 30] = hhi [30, 50] ∧
      (∀ w ∈ ([60, 40] : List ℚ), 0 ≤ w) ∧ ([60, 40] : List ℚ).sum = 100 ∧
      0 < hhi [60, 40] :=
  ⟨C8_hhi_properties.1 [50, 30] [30, 50] (List.Perm.swap 30 50 []),
   by norm_num, by norm_num,
   (C8_hhi_properties.2 [60, 40] (by norm_num) (by norm_num)).1⟩

/-! ### C5 — per-group sector and country selection -/

/-- C5 (amended): each consolidated group's sector (and country) is the
first NON-NaN value in the group's row order — pandas `dropna()` removes
only NaN, so an empty-string value (as produced for funds lacking the
column) is selected rather than skipped, and `""` also results when every
value in the group is NaN. -/
theorem C5_group_first_value (rows : List PortfolioRisk.PortRow)
    (c : PortfolioRisk.Consolidated) (hc : c ∈ PortfolioRisk.consolidate rows) :
    c.sector = specFirstPresent
        ((PortfolioRisk.groupRows (PortfolioRisk.keyedRows rows) c.key).map (·.sector)) ∧
      c.country = specFirstPresent
        ((PortfolioRisk.groupRows (PortfolioRisk.keyedRows rows) c.key).map (·.country)) := by
  rw [PortfolioRisk.consolidate] at hc
  rcases List.mem_map.mp hc with ⟨k, hk, rfl⟩
  constructor
  · exact PortfolioRisk.firstNonNaN_eq_specFirstPresent _
  · exact PortfolioRisk.firstNonNaN_eq_specFirstPresent _

/-- C5 counterexample: two funds both holding "A" at 100%; the first lacks
a sector column (its row's sector is the empty string, non-NaN), the
second carries sector "Tech". The consolidated group's sector is "" — the
empty string was NOT passed over in favour of the later non-empty "Tech",
as the claim requires. -/
theorem C5_counterexample :
    (PortfolioRisk.consolidate
        (PortfolioRisk.portRows [noSectorFund, techSectorFund])).map (·.sector) = [""] ∧
      (PortfolioRisk.portRows [noSectorFund, techSectorFund]).map (·.sector) =
        [some "", some "Tech"] := by
  constructor <;>
    simp +decide [PortfolioRisk.consolidate, PortfolioRisk.portRows,
      PortfolioRisk.portRowsWith, PortfolioRisk.toPortRow, noSectorFund, techSectorFund,
      PortfolioRisk.cellOr, PortfolioRisk.keyedRows, PortfolioRisk.useIsinKey,
      PortfolioRisk.keyOf, dedupFirst, PortfolioRisk.mkGroup, PortfolioRisk.groupRows,
      PortfolioRisk.firstNonNaN, List.filterMap_cons, List.filter_cons]

/-- C5 witness: the theorem applied to the consolidated group of the
two-fund run above. -/
theorem C5_witness :
    (⟨.byIsin "" "A", "", "", 100⟩ : PortfolioRisk.Consolidated) ∈
        PortfolioRisk.consolidate (PortfolioRisk.portRows [noSectorFund, techSectorFund]) ∧
      (⟨.byIsin "" "A", "", "", 100⟩ : PortfolioRisk.Consolidated).sector =
        specFirstPresent
          ((PortfolioRisk.groupRows
              (PortfolioRisk.keyedRows (PortfolioRisk.portRows [noSectorFund, techSectorFund]))
              (⟨.byIsin "" "A", "", "", 100⟩ : PortfolioRisk.Consolidated).key).map
            (·.sector)) :=
  ⟨by
    norm_num [PortfolioRisk.consolidate, PortfolioRisk.portRows,
      PortfolioRisk.portRowsWith, PortfolioRisk.toPortRow, noSectorFund, techSectorFund,
      PortfolioRisk.cellOr, PortfolioRisk.keyedRows, PortfolioRisk.useIsinKey,
      PortfolioRisk.keyOf, dedupFirst, PortfolioRisk.mkGroup, PortfolioRisk.groupRows,
      PortfolioRisk.firstNonNaN, List.filterMap_cons, List.filter_cons],
   (C5_group_first_value _ _
     (by
       norm_num [PortfolioRisk.consolidate, PortfolioRisk.portRows,
         PortfolioRisk.portRowsWith, PortfolioRisk.toPortRow, noSectorFund, techSectorFund,
         PortfolioRisk.cellOr, PortfolioRisk.keyedRows, PortfolioRisk.useIsinKey,
         PortfolioRisk.keyOf, dedupFirst, PortfolioRisk.mkGroup, PortfolioRisk.groupRows,
         PortfolioRisk.firstNonNaN, List.filterMap_cons, List.filter_cons])).1⟩
